import Mathlib

/-!
# Verification of the voice to-do agent's task store

Shallow embedding of the task-store core of `todo_agent.py` (class
`TodoAssistant`): the task record, the in-memory store, its mutation
operations (`add_task`, `complete_task`, `delete_task`,
`update_task_priority`, `clear_completed_tasks`), its query operations
(`list_tasks`, `get_daily_summary`, `suggest_next_task`) and its
persistence layer (`save_tasks` / `load_tasks`).

Python dictionaries holding a task's fields become a fixed-field record;
`datetime.now()` timestamps and the current-date string of the `"today"`
filter are passed in as explicit string parameters; the JSON file is
modelled by a small JSON value type, with file absence and read/parse
failure as explicit constructors.
-/

namespace TodoAgent

/-- One task record, mirroring the dict built in `add_task`
(fields `id, description, priority, status, created_at, due_date,
completed_at`). -/
structure Task where
  id : Nat
  description : String
  priority : String
  status : String
  created_at : String
  due_date : Option String
  completed_at : Option String
deriving DecidableEq, Repr

/-- The store state: `self.tasks` plus `self.task_id_counter`. -/
structure Store where
  tasks : List Task
  task_id_counter : Nat
deriving DecidableEq, Repr

/-- The state set up by `__init__` before `load_tasks` runs:
`tasks = []`, `task_id_counter = 1`. -/
def initialStore : Store := ⟨[], 1⟩

/-- Python's `str.lower()`, character by character (the agent's priority
and filter keywords are ASCII, where this is exact). -/
def strToLower (s : String) : String := ⟨s.data.map Char.toLower⟩

/-- The emoji dict `{"low": 🔵, "medium": 🟡, "high": 🟠, "urgent": 🔴}`
with `.get(p, "⚪")`. -/
def priorityEmoji (p : String) : String :=
  if p = "low" then "🔵"
  else if p = "medium" then "🟡"
  else if p = "high" then "🟠"
  else if p = "urgent" then "🔴"
  else "⚪"

/-- `add_task`: appends the new task (priority lower-cased, status
`"pending"`, `completed_at = None`), increments the counter and returns
the confirmation string.  `now` stands for
`datetime.now().strftime("%Y-%m-%d %H:%M")`. -/
def add_task (s : Store) (task_description priority : String)
    (due_date : Option String) (now : String) : Store × String :=
  let task : Task :=
    { id := s.task_id_counter
      description := task_description
      priority := strToLower priority
      status := "pending"
      created_at := now
      due_date := due_date
      completed_at := none }
  let s' : Store :=
    { tasks := s.tasks ++ [task], task_id_counter := s.task_id_counter + 1 }
  let response :=
    "Got it! I've added '" ++ task_description ++ "' to your list "
      ++ priorityEmoji (strToLower priority)
  let response :=
    match due_date with
    | some d => response ++ " (due " ++ d ++ ")"
    | none => response
  (s', response)

/-- `f"Task '{task['description']}' is already completed! 🎉"` -/
def alreadyDoneMsg (description : String) : String :=
  "Task '" ++ description ++ "' is already completed! 🎉"

/-- The congratulation string of `complete_task`, including the
remaining-count tail chosen by the `if remaining == 0 / == 1 / else`
chain. -/
def completeSuccessMsg (description : String) (remaining : Nat) : String :=
  let response := "Awesome! ✅ You completed '" ++ description ++ "'"
  if remaining = 0 then
    response ++ "\n\n🎉 Amazing! You've completed all your tasks! You're crushing it today!"
  else if remaining = 1 then
    response ++ "\n\nJust 1 more task to go! You're almost done!"
  else
    response ++ "\n\n" ++ toString remaining ++ " tasks remaining. Keep up the great work!"

/-- `f"I couldn't find a task with ID {task_id}. Try listing your tasks to see the IDs."` -/
def notFoundMsg (task_id : Nat) : String :=
  "I couldn't find a task with ID " ++ toString task_id
    ++ ". Try listing your tasks to see the IDs."

/-- The scan of `complete_task`'s `for` loop: walks `self.tasks` in order,
acts on the first task whose id matches.  Returns the (possibly updated)
list together with `some (matched task after the update, whether it was
already completed)`, or `none` when no id matches. -/
def completeList (tid : Nat) (now : String) :
    List Task → List Task × Option (Task × Bool)
  | [] => ([], none)
  | t :: ts =>
    if t.id = tid then
      if t.status = "completed" then (t :: ts, some (t, true))
      else
        let t' := { t with status := "completed", completed_at := some now }
        (t' :: ts, some (t', false))
    else
      let r := completeList tid now ts
      (t :: r.1, r.2)

/-- `complete_task`: first matching task is completed in place; an
already-completed match leaves the state unchanged; the remaining count
of the success message is taken over the updated `self.tasks`. -/
def complete_task (s : Store) (tid : Nat) (now : String) : Store × String :=
  match completeList tid now s.tasks with
  | (_, some (t, true)) => (s, alreadyDoneMsg t.description)
  | (ts', some (t, false)) =>
      let remaining := ts'.countP (fun u => u.status == "pending")
      ({ s with tasks := ts' }, completeSuccessMsg t.description remaining)
  | (_, none) => (s, notFoundMsg tid)

/-- The scan of `delete_task`'s loop: removes the first task whose id
matches, returning `some description` of the removed task. -/
def deleteList (tid : Nat) : List Task → List Task × Option String
  | [] => ([], none)
  | t :: ts =>
    if t.id = tid then (ts, some t.description)
    else
      let r := deleteList tid ts
      (t :: r.1, r.2)

/-- `delete_task`. -/
def delete_task (s : Store) (tid : Nat) : Store × String :=
  match deleteList tid s.tasks with
  | (ts', some d) => ({ s with tasks := ts' }, "Removed '" ++ d ++ "' from your list.")
  | (_, none) => (s, "I couldn't find a task with ID " ++ toString tid ++ ".")

/-- The scan of `update_task_priority`'s loop: overwrites the priority
(lower-cased, unvalidated) of the first task whose id matches, returning
`some (old priority, description)`. -/
def updateList (tid : Nat) (newPriority : String) :
    List Task → List Task × Option (String × String)
  | [] => ([], none)
  | t :: ts =>
    if t.id = tid then
      ({ t with priority := strToLower newPriority } :: ts, some (t.priority, t.description))
    else
      let r := updateList tid newPriority ts
      (t :: r.1, r.2)

/-- `update_task_priority`. -/
def update_task_priority (s : Store) (tid : Nat) (newPriority : String) :
    Store × String :=
  match updateList tid newPriority s.tasks with
  | (ts', some (old, d)) =>
      ({ s with tasks := ts' },
        "Updated '" ++ d ++ "' from " ++ old ++ " to " ++ newPriority
          ++ " priority " ++ priorityEmoji (strToLower newPriority))
  | (_, none) => (s, "I couldn't find a task with ID " ++ toString tid ++ ".")

/-- `clear_completed_tasks`: keeps the tasks whose status is not
`"completed"`. -/
def clear_completed_tasks (s : Store) : Store × String :=
  let completed := s.tasks.filter (fun t => t.status == "completed")
  if completed = [] then (s, "No completed tasks to clear.")
  else
    let count := completed.length
    ({ s with tasks := s.tasks.filter (fun t => t.status != "completed") },
      "Cleared " ++ toString count ++ " completed task"
        ++ (if count ≠ 1 then "s" else "") ++ ". Fresh start! 🧹")

/-! ## The ordering used by `suggest_next_task` -/

/-- `priority_order = {"urgent": 0, "high": 1, "medium": 2, "low": 3}`
with `.get(p, 4)`. -/
def priorityRank (p : String) : Nat :=
  if p = "urgent" then 0
  else if p = "high" then 1
  else if p = "medium" then 2
  else if p = "low" then 3
  else 4

/-- `t["due_date"] if t["due_date"] else "9999"`: Python's truthiness test
sends both `None` and the empty string to the sentinel `"9999"`. -/
def dueKey (t : Task) : String :=
  match t.due_date with
  | none => "9999"
  | some d => if d = "" then "9999" else d

/-- Python string `<`: lexicographic comparison of code points. -/
def strLt (a b : String) : Prop :=
  List.Lex (· < ·) a.data b.data

instance strLt.instDecidable (a b : String) : Decidable (strLt a b) :=
  List.Lex.decidableRel (· < ·) a.data b.data

/-- Python tuple `<` on the sort key
`(priority_order.get(priority, 4), due_date or "9999")`. -/
def keyLt (a b : Task) : Prop :=
  priorityRank a.priority < priorityRank b.priority ∨
    (priorityRank a.priority = priorityRank b.priority ∧ strLt (dueKey a) (dueKey b))

instance keyLt.instDecidable (a b : Task) : Decidable (keyLt a b) :=
  inferInstanceAs (Decidable (_ ∨ _ ∧ _))

/-- One step of a stable insertion sort: `t` is placed before the first
element strictly greater than it, hence after every element whose key is
`≤` its own — exactly the tie behaviour of Python's stable `sorted`. -/
def insertByKey (t : Task) : List Task → List Task
  | [] => [t]
  | h :: rest => if keyLt t h then t :: h :: rest else h :: insertByKey t rest

/-- Stable sort by the `suggest_next_task` key, modelling Python's
`sorted(pending_tasks, key=...)`: inserting left to right keeps
equal-key elements in their original relative order. -/
def sortByKey (l : List Task) : List Task :=
  l.foldl (fun acc t => insertByKey t acc) []

/-- `pending_tasks = [t for t in self.tasks if t["status"] == "pending"]` -/
def pendingTasks (s : Store) : List Task :=
  s.tasks.filter (fun t => t.status == "pending")

/-- `sorted_tasks[0]` of `suggest_next_task` (`none` when there is no
pending task and the function returns early). -/
def suggestedTask (s : Store) : Option Task :=
  (sortByKey (pendingTasks s)).head?

/-- `suggest_next_task`'s returned string. -/
def suggest_next_task (s : Store) : String :=
  match suggestedTask s with
  | none => "You've completed all your tasks! 🎉 Want to add something new?"
  | some next_task =>
    let response :=
      "I suggest working on: " ++ priorityEmoji next_task.priority
        ++ " '" ++ next_task.description ++ "'"
    let response :=
      match next_task.due_date with
      | some d => response ++ " (due " ++ d ++ ")"
      | none => response
    let response :=
      response ++ "\n\nThis is your " ++ next_task.priority ++ " priority task."
    if 1 < (pendingTasks s).length then
      response ++ " You have " ++ toString ((pendingTasks s).length - 1)
        ++ " other tasks waiting."
    else response

/-! ## Order-theoretic facts about the sort key -/

theorem strLt_irrefl (a : String) : ¬ strLt a a :=
  fun h => asymm (r := List.Lex ((· < ·) : Char → Char → Prop)) h h

theorem strLt_trans {a b c : String} (h₁ : strLt a b) (h₂ : strLt b c) :
    strLt a c :=
  IsTrans.trans (r := List.Lex ((· < ·) : Char → Char → Prop)) _ _ _ h₁ h₂

theorem strLt_trichotomy (a b : String) : strLt a b ∨ a = b ∨ strLt b a := by
  rcases trichotomous_of (List.Lex ((· < ·) : Char → Char → Prop)) a.data b.data with
    h | h | h
  · exact Or.inl h
  · exact Or.inr (Or.inl (congrArg String.mk h))
  · exact Or.inr (Or.inr h)

/-- Key equality: both components of the Python sort tuple agree. -/
def keyEq (a b : Task) : Prop :=
  priorityRank a.priority = priorityRank b.priority ∧ dueKey a = dueKey b

theorem keyLt_irrefl (a : Task) : ¬ keyLt a a := by
  rintro (h | ⟨-, h⟩)
  · exact Nat.lt_irrefl _ h
  · exact strLt_irrefl _ h

theorem keyLt_trans {a b c : Task} (h₁ : keyLt a b) (h₂ : keyLt b c) :
    keyLt a c := by
  rcases h₁ with h₁ | ⟨e₁, h₁⟩ <;> rcases h₂ with h₂ | ⟨e₂, h₂⟩
  · exact Or.inl (Nat.lt_trans h₁ h₂)
  · exact Or.inl (e₂ ▸ h₁)
  · exact Or.inl (e₁ ▸ h₂)
  · exact Or.inr ⟨e₁.trans e₂, strLt_trans h₁ h₂⟩

theorem keyLt_trichotomy (a b : Task) : keyLt a b ∨ keyEq a b ∨ keyLt b a := by
  rcases Nat.lt_trichotomy (priorityRank a.priority) (priorityRank b.priority) with
    h | h | h
  · exact Or.inl (Or.inl h)
  · rcases strLt_trichotomy (dueKey a) (dueKey b) with h' | h' | h'
    · exact Or.inl (Or.inr ⟨h, h'⟩)
    · exact Or.inr (Or.inl ⟨h, h'⟩)
    · exact Or.inr (Or.inr (Or.inr ⟨h.symm, h'⟩))
  · exact Or.inr (Or.inr (Or.inl h))

theorem keyEq_keyLt_left {a b c : Task} (e : keyEq a b) (h : keyLt a c) :
    keyLt b c := by
  rcases h with h | ⟨e', h⟩
  · exact Or.inl (e.1 ▸ h)
  · exact Or.inr ⟨e.1 ▸ e', e.2 ▸ h⟩

theorem keyEq_keyLt_right {a b c : Task} (e : keyEq a b) (h : keyLt c a) :
    keyLt c b := by
  rcases h with h | ⟨e', h⟩
  · exact Or.inl (e.1 ▸ h)
  · exact Or.inr ⟨e'.trans e.1, e.2 ▸ h⟩

/-- `m ≤ t` (as `¬ keyLt t m`) and `t < x` give `m < x`. -/
theorem keyLt_of_not_keyLt_of_keyLt {t m x : Task}
    (h₁ : ¬ keyLt t m) (h₂ : keyLt t x) : keyLt m x := by
  rcases keyLt_trichotomy m t with h | h | h
  · exact keyLt_trans h h₂
  · exact keyEq_keyLt_left ⟨h.1.symm, h.2.symm⟩ h₂
  · exact absurd h h₁

/-- `m < x` and `x ≤ t` (as `¬ keyLt t x`) give `m < t`. -/
theorem keyLt_of_keyLt_of_not_keyLt {m x t : Task}
    (h₁ : keyLt m x) (h₂ : ¬ keyLt t x) : keyLt m t := by
  rcases keyLt_trichotomy m t with h | h | h
  · exact h
  · exact absurd (keyEq_keyLt_left h h₁) h₂
  · exact absurd (keyLt_trans h h₁) h₂

/-! ## The first minimum picked by the stable sort -/

/-- Left fold returning the first key-minimal element of `b :: l`. -/
def pickMin (b : Task) (l : List Task) : Task :=
  l.foldl (fun b t => if keyLt t b then t else b) b

theorem pickMin_nil (b : Task) : pickMin b [] = b := rfl

theorem pickMin_cons (b t : Task) (ts : List Task) :
    pickMin b (t :: ts) = pickMin (if keyLt t b then t else b) ts := rfl

theorem head?_insertByKey (t : Task) (l : List Task) :
    (insertByKey t l).head? =
      some (match l with | [] => t | h :: _ => if keyLt t h then t else h) := by
  cases l with
  | nil => rfl
  | cons h rest =>
    simp only [insertByKey]
    split <;> rfl

theorem insertByKey_ne_nil (t : Task) (l : List Task) : insertByKey t l ≠ [] := by
  cases l with
  | nil => simp [insertByKey]
  | cons h rest =>
    simp only [insertByKey]
    split <;> simp

theorem head?_foldl_insertByKey :
    ∀ (l acc : List Task) (hd : Task), acc.head? = some hd →
      (l.foldl (fun a t => insertByKey t a) acc).head? = some (pickMin hd l) := by
  intro l
  induction l with
  | nil => intro acc hd h; simpa [pickMin] using h
  | cons t ts ih =>
    intro acc hd h
    cases acc with
    | nil => simp at h
    | cons a rest =>
      obtain rfl : a = hd := by simpa using h
      rw [List.foldl_cons, pickMin_cons]
      exact ih _ _ (head?_insertByKey t _)

theorem head?_sortByKey (x : Task) (xs : List Task) :
    (sortByKey (x :: xs)).head? = some (pickMin x xs) := by
  rw [sortByKey, List.foldl_cons]
  exact head?_foldl_insertByKey xs (insertByKey x []) x (by simp [insertByKey])

/-- `pickMin x xs` is key-minimal among `x :: xs`. -/
theorem pickMin_min :
    ∀ (xs : List Task) (x u : Task), u ∈ x :: xs → ¬ keyLt u (pickMin x xs) := by
  intro xs
  induction xs with
  | nil =>
    intro x u hu
    obtain rfl : u = x := by simpa using hu
    exact keyLt_irrefl _
  | cons t ts ih =>
    intro x u hu
    rw [pickMin_cons]
    by_cases hlt : keyLt t x
    · rw [if_pos hlt]
      rcases List.mem_cons.mp hu with rfl | hu
      · intro hxm
        exact ih t t (List.mem_cons_self _ _) (keyLt_trans hlt hxm)
      · exact ih t u hu
    · rw [if_neg hlt]
      rcases List.mem_cons.mp hu with rfl | hu
      · exact ih _ _ (List.mem_cons_self _ _)
      · rcases List.mem_cons.mp hu with rfl | hu
        · intro htm
          exact hlt (keyLt_of_keyLt_of_not_keyLt htm
            (ih _ _ (List.mem_cons_self _ _)))
        · exact ih _ _ (List.mem_cons.mpr (Or.inr hu))

/-- `pickMin x xs` occurs in `x :: xs`, and everything strictly before its
occurrence is key-greater: the pick is the *first* minimum, the tie-break
of Python's stable sort. -/
theorem pickMin_split :
    ∀ (xs : List Task) (x : Task), ∃ l₁ l₂,
      x :: xs = l₁ ++ pickMin x xs :: l₂ ∧
      (∀ u ∈ l₁, keyLt (pickMin x xs) u) := by
  intro xs
  induction xs with
  | nil => intro x; exact ⟨[], [], rfl, by simp⟩
  | cons t ts ih =>
    intro x
    rw [pickMin_cons]
    by_cases hlt : keyLt t x
    · rw [if_pos hlt]
      obtain ⟨l₁, l₂, hsplit, hpre⟩ := ih t
      refine ⟨x :: l₁, l₂, by rw [List.cons_append, ← hsplit], ?_⟩
      intro u hu
      rcases List.mem_cons.mp hu with rfl | hu
      · exact keyLt_of_not_keyLt_of_keyLt
          (pickMin_min ts t t (List.mem_cons_self _ _)) hlt
      · exact hpre u hu
    · rw [if_neg hlt]
      obtain ⟨l₁, l₂, hsplit, hpre⟩ := ih x
      cases l₁ with
      | nil =>
        rw [List.nil_append] at hsplit
        injection hsplit with h1 h2
        refine ⟨[], t :: ts, ?_, by simp⟩
        rw [List.nil_append, ← h1]
      | cons a l₁' =>
        rw [List.cons_append] at hsplit
        injection hsplit with h1 h2
        refine ⟨x :: t :: l₁', l₂, ?_, ?_⟩
        · simp only [List.cons_append]
          exact congrArg (x :: ·) (congrArg (t :: ·) h2)
        · intro u hu
          have hmx : keyLt (pickMin x ts) x :=
            h1.symm ▸ hpre a (List.mem_cons_self _ _)
          rcases List.mem_cons.mp hu with rfl | hu
          · exact hmx
          · rcases List.mem_cons.mp hu with rfl | hu
            · exact keyLt_of_keyLt_of_not_keyLt hmx hlt
            · exact hpre u (List.mem_cons.mpr (Or.inr hu))

/-! ## `list_tasks` -/

/-- The filtering `for`/`elif` chain of `list_tasks`, already given the
lower-cased filter keyword.  `todayStr` stands for
`datetime.now().strftime("%Y-%m-%d")`. -/
def filteredTasks (tasks : List Task) (filter_lower todayStr : String) :
    List Task :=
  tasks.foldl (fun filtered task =>
    if filter_lower = "all" then filtered ++ [task]
    else if filter_lower = "pending" ∧ task.status = "pending" then
      filtered ++ [task]
    else if filter_lower = "completed" ∧ task.status = "completed" then
      filtered ++ [task]
    else if filter_lower = "today" ∧
        (task.due_date = some "today" ∨ task.due_date = some todayStr) then
      filtered ++ [task]
    else if filter_lower = "high-priority" ∧
        (task.priority = "high" ∨ task.priority = "urgent") then
      filtered ++ [task]
    else filtered) []

/-- One itemized line of the listing. -/
def taskLine (t : Task) : String :=
  (if t.status = "completed" then "✅" else "⬜") ++ " "
    ++ priorityEmoji t.priority ++ " " ++ t.description
    ++ (match t.due_date with
        | some d => " (due " ++ d ++ ")"
        | none => "")
    ++ " [ID: " ++ toString t.id ++ "]\n"

/-- The footer `"\n📊 Total: {len} tasks ({p} pending, {c} completed)"`. -/
def listFooter (total pending completed : Nat) : String :=
  "\n📊 Total: " ++ toString total ++ " tasks (" ++ toString pending
    ++ " pending, " ++ toString completed ++ " completed)"

/-- `list_tasks`: empty-store message, filter, per-task lines, and the
footer whose counts run over the unfiltered `self.tasks`. -/
def list_tasks (s : Store) (filter_by todayStr : String) : String :=
  if s.tasks = [] then
    "Your to-do list is empty! What would you like to accomplish today?"
  else
    let filtered_tasks := filteredTasks s.tasks (strToLower filter_by) todayStr
    if filtered_tasks = [] then "No " ++ filter_by ++ " tasks found."
    else
      let result := "Here are your " ++ filter_by ++ " tasks:\n\n"
      let result := filtered_tasks.foldl (fun r t => r ++ taskLine t) result
      let pending_count := s.tasks.countP (fun t => t.status == "pending")
      let completed_count := s.tasks.countP (fun t => t.status == "completed")
      result ++ listFooter s.tasks.length pending_count completed_count

/-! ## `get_daily_summary` -/

/-- `len(self.tasks)` -/
def totalTasks (s : Store) : Nat := s.tasks.length

/-- `sum(1 for t in self.tasks if t["status"] == "completed")` -/
def completedCount (s : Store) : Nat :=
  s.tasks.countP (fun t => t.status == "completed")

/-- `sum(1 for t in self.tasks if t["status"] == "pending")` -/
def pendingCount (s : Store) : Nat :=
  s.tasks.countP (fun t => t.status == "pending")

/-- The pending-high-or-urgent count of the summary. -/
def highPriorityCount (s : Store) : Nat :=
  s.tasks.countP (fun t =>
    (t.priority == "high" || t.priority == "urgent") && t.status == "pending")

/-- `completion_rate = (completed / total * 100) if total > 0 else 0`,
as an exact rational (Python computes it in floating point). -/
def completionRate (s : Store) : ℚ :=
  if 0 < totalTasks s then
    (completedCount s : ℚ) / (totalTasks s : ℚ) * 100
  else 0

/-- Round-half-to-even on rationals, modelling the decimal rounding that
the `:.0f` format applies to the completion rate (for the rates arising
here the float value is exact enough that the tie rule is the only
visible difference from round-half-up). -/
def roundHalfEven (q : ℚ) : ℤ :=
  if Int.fract q = 1 / 2 then (if 2 ∣ ⌊q⌋ then ⌊q⌋ else ⌊q⌋ + 1)
  else round q

/-- The integer printed by `"Progress: {completion_rate:.0f}%"`. -/
def progressDisplay (s : Store) : ℤ := roundHalfEven (completionRate s)

/-- The five-tier `if/elif` chain choosing the encouragement line,
compared against the *unrounded* rate exactly as in the source. -/
def encouragement (s : Store) : String :=
  if completionRate s = 100 then "🎉 Perfect! You've completed everything!"
  else if 75 ≤ completionRate s then "🌟 Great progress! You're almost there!"
  else if 50 ≤ completionRate s then "👍 Good work! Keep it up!"
  else if 25 ≤ completionRate s then "💪 You're making progress! Stay focused!"
  else "🚀 Let's get started! You've got this!"

/-- `"You don't have any tasks yet. What would you like to accomplish today?"` -/
def emptySummaryMsg : String :=
  "You don't have any tasks yet. What would you like to accomplish today?"

/-- `get_daily_summary`: early return on an empty store (so the rate is
never computed there), otherwise the assembled summary text. -/
def get_daily_summary (s : Store) : String :=
  if s.tasks = [] then emptySummaryMsg
  else
    "📊 Daily Summary\n\n"
      ++ "Total tasks: " ++ toString (totalTasks s) ++ "\n"
      ++ "✅ Completed: " ++ toString (completedCount s) ++ "\n"
      ++ "⬜ Pending: " ++ toString (pendingCount s) ++ "\n"
      ++ "🔴 High priority: " ++ toString (highPriorityCount s) ++ "\n"
      ++ "Progress: " ++ toString (progressDisplay s) ++ "%\n\n"
      ++ encouragement s

/-! ## Persistence: `save_tasks` / `load_tasks`

The durable file holds JSON.  `JVal` models the parsed value;
`FileRead` models the three outcomes of the `try` block in
`load_tasks`: no file (`os.path.exists` false), a raised exception while
reading or parsing (caught, printed, state left at the `__init__`
defaults), or a successfully parsed value. -/

/-- A parsed JSON value. -/
inductive JVal where
  | jnull
  | jnum (n : Int)
  | jstr (s : String)
  | jarr (items : List JVal)
  | jobj (fields : List (String × JVal))

/-- Python `dict.get(k)` on a parsed JSON object (first binding wins). -/
def jLookup (fields : List (String × JVal)) (k : String) : Option JVal :=
  (fields.find? (fun p => p.1 == k)).map (fun p => p.2)

/-- Serialization of an optional text field (`None` becomes JSON `null`). -/
def optStrToJ : Option String → JVal
  | none => JVal.jnull
  | some s => JVal.jstr s

/-- The JSON object `json.dump` writes for one task. -/
def encodeTask (t : Task) : JVal :=
  JVal.jobj
    [("id", JVal.jnum (t.id : Int)),
     ("description", JVal.jstr t.description),
     ("priority", JVal.jstr t.priority),
     ("status", JVal.jstr t.status),
     ("created_at", JVal.jstr t.created_at),
     ("due_date", optStrToJ t.due_date),
     ("completed_at", optStrToJ t.completed_at)]

/-- Outcome of opening and parsing `tasks.json`. -/
inductive FileRead where
  | missing
  | failure
  | success (data : JVal)

/-- `save_tasks` writes `{"tasks": [...], "next_id": counter}`; a later
read of that file parses back to exactly this value. -/
def save_tasks (s : Store) : FileRead :=
  FileRead.success
    (JVal.jobj
      [("tasks", JVal.jarr (s.tasks.map encodeTask)),
       ("next_id", JVal.jnum (s.task_id_counter : Int))])

/-- Reading an optional text field back. -/
def jOptStr : Option JVal → Option String
  | some (JVal.jstr s) => some s
  | _ => none

/-- The typed reading of one stored task record.  The Python code keeps
the parsed dicts untyped; records whose fields do not have the shape
`save_tasks` produces fall outside this typed model and decode to
`none`. -/
def decodeTask (j : JVal) : Option Task :=
  match j with
  | JVal.jobj fields =>
    match jLookup fields "id", jLookup fields "description",
        jLookup fields "priority", jLookup fields "status",
        jLookup fields "created_at" with
    | some (JVal.jnum i), some (JVal.jstr d), some (JVal.jstr p),
        some (JVal.jstr st), some (JVal.jstr c) =>
      some
        { id := i.toNat, description := d, priority := p, status := st,
          created_at := c, due_date := jOptStr (jLookup fields "due_date"),
          completed_at := jOptStr (jLookup fields "completed_at") }
    | _, _, _, _, _ => none
  | _ => none

/-- `data.get("tasks", [])` -/
def jGetTasks (j : JVal) : List JVal :=
  match j with
  | JVal.jobj fields =>
    match jLookup fields "tasks" with
    | some (JVal.jarr l) => l
    | _ => []
  | _ => []

/-- `data.get("next_id", 1)` -/
def jGetNextId (j : JVal) : Nat :=
  match j with
  | JVal.jobj fields =>
    match jLookup fields "next_id" with
    | some (JVal.jnum n) => n.toNat
    | _ => 1
  | _ => 1

/-- `load_tasks` (run at construction, after `__init__` set the empty
defaults): a missing file leaves the defaults; a raised read/parse error
is caught and printed, leaving the defaults; a parsed value is read with
`data.get("tasks", [])` and `data.get("next_id", 1)`. -/
def load_tasks (r : FileRead) : Store :=
  match r with
  | FileRead.missing => initialStore
  | FileRead.failure => initialStore
  | FileRead.success data =>
    { tasks := (jGetTasks data).filterMap decodeTask,
      task_id_counter := jGetNextId data }

/-! ## Operation sequences from the empty store -/

/-- One user-triggered mutation of the store. -/
inductive Op where
  | add (desc prio : String) (due : Option String) (now : String)
  | complete (tid : Nat) (now : String)
  | delete (tid : Nat)
  | updatePriority (tid : Nat) (prio : String)
  | clearCompleted
deriving DecidableEq, Repr

/-- The state change of one operation (its returned string dropped). -/
def applyOp (s : Store) : Op → Store
  | Op.add d p due now => (add_task s d p due now).1
  | Op.complete tid now => (complete_task s tid now).1
  | Op.delete tid => (delete_task s tid).1
  | Op.updatePriority tid p => (update_task_priority s tid p).1
  | Op.clearCompleted => (clear_completed_tasks s).1

/-- Running a sequence of operations. -/
def run (s : Store) (ops : List Op) : Store :=
  ops.foldl applyOp s

/-- The ids handed out by the `add` operations of a sequence, in order. -/
def assignedIds (s : Store) : List Op → List Nat
  | [] => []
  | op :: ops =>
    match op with
    | Op.add _ _ _ _ => s.task_id_counter :: assignedIds (applyOp s op) ops
    | _ => assignedIds (applyOp s op) ops

/-! ## Persistence round trip -/

theorem decodeTask_encodeTask (t : Task) : decodeTask (encodeTask t) = some t := by
  cases t with
  | mk i d p st c due comp =>
    cases due <;> cases comp <;> rfl

theorem filterMap_decode_encode (l : List Task) :
    (l.map encodeTask).filterMap decodeTask = l := by
  induction l with
  | nil => rfl
  | cons t ts ih => simp [List.filterMap_cons, decodeTask_encodeTask, ih]

/-- C8: saving the store and loading the written value into a fresh store
yields the same ordered task sequence and the same next-id counter. -/
theorem save_load_roundtrip (s : Store) : load_tasks (save_tasks s) = s := by
  cases s with
  | mk tasks counter =>
    have h : load_tasks (save_tasks (Store.mk tasks counter))
        = Store.mk ((tasks.map encodeTask).filterMap decodeTask)
            ((counter : Int)).toNat := rfl
    rw [h, filterMap_decode_encode]
    simp

/-- C6: a missing durable file and a failed read/parse both leave the
store at the `__init__` defaults — no tasks, counter 1 — rather than
failing construction (the exception is caught and only printed). -/
theorem load_fallback_empty :
    load_tasks FileRead.missing = initialStore ∧
    load_tasks FileRead.failure = initialStore ∧
    initialStore.tasks = [] ∧ initialStore.task_id_counter = 1 :=
  ⟨rfl, rfl, rfl, rfl⟩

/-- A stored file whose object carries one task record (id 1) but no
`"next_id"` field. -/
def fileWithoutNextId : FileRead :=
  FileRead.success
    (JVal.jobj
      [("tasks", JVal.jarr
        [encodeTask
          { id := 1, description := "old task", priority := "medium",
            status := "pending", created_at := "2026-10-11 09:00",
            due_date := none, completed_at := none }])])

/-- C10: a parsed object with a `"tasks"` list but no `"next_id"` keeps
the decoded tasks and defaults the counter to 1; on the concrete file
above the loaded counter 1 does not exceed the existing id 1, and the
next `add` hands out the duplicate id 1. -/
theorem load_without_next_id :
    (∀ (fields : List (String × JVal)) (items : List JVal),
      jLookup fields "next_id" = none →
      jLookup fields "tasks" = some (JVal.jarr items) →
      load_tasks (FileRead.success (JVal.jobj fields))
        = Store.mk (items.filterMap decodeTask) 1) ∧
    (load_tasks fileWithoutNextId).task_id_counter = 1 ∧
    ((load_tasks fileWithoutNextId).tasks.map (fun t => t.id)) = [1] ∧
    ((add_task (load_tasks fileWithoutNextId) "second task" "medium" none
        "2026-10-12 10:00").1.tasks.map (fun t => t.id)) = [1, 1] := by
  refine ⟨?_, rfl, rfl, rfl⟩
  intro fields items h1 h2
  simp [load_tasks, jGetTasks, jGetNextId, h1, h2]

/-- Closed instance of the conditional part of `load_without_next_id`,
at the concrete object of `fileWithoutNextId`. -/
theorem load_without_next_id_witness :
    load_tasks (FileRead.success (JVal.jobj
      [("tasks", JVal.jarr
        [encodeTask
          { id := 1, description := "old task", priority := "medium",
            status := "pending", created_at := "2026-10-11 09:00",
            due_date := none, completed_at := none }])]))
      = Store.mk
          ([encodeTask
            { id := 1, description := "old task", priority := "medium",
              status := "pending", created_at := "2026-10-11 09:00",
              due_date := none, completed_at := none }].filterMap decodeTask) 1 :=
  load_without_next_id.1 _ _ rfl rfl

/-! ## Filter correctness -/

theorem foldl_filter_step (p : Task → Bool) (step : List Task → Task → List Task)
    (hstep : ∀ acc t, step acc t = if p t then acc ++ [t] else acc) :
    ∀ (l acc : List Task), l.foldl step acc = acc ++ l.filter p := by
  intro l
  induction l with
  | nil => intro acc; simp
  | cons t ts ih =>
    intro acc
    rw [List.foldl_cons, hstep, ih, List.filter_cons]
    cases hpt : p t
    · simp
    · simp [List.append_assoc]

theorem filteredTasks_pending (tasks : List Task) (d : String) :
    filteredTasks tasks "pending" d
      = tasks.filter (fun t => t.status == "pending") := by
  rw [filteredTasks,
    foldl_filter_step (fun t => t.status == "pending") _ (fun acc t => by simp),
    List.nil_append]

theorem filteredTasks_completed (tasks : List Task) (d : String) :
    filteredTasks tasks "completed" d
      = tasks.filter (fun t => t.status == "completed") := by
  rw [filteredTasks,
    foldl_filter_step (fun t => t.status == "completed") _ (fun acc t => by simp),
    List.nil_append]

theorem filteredTasks_highPriority (tasks : List Task) (d : String) :
    filteredTasks tasks "high-priority" d
      = tasks.filter (fun t => t.priority == "high" || t.priority == "urgent") := by
  rw [filteredTasks,
    foldl_filter_step (fun t => t.priority == "high" || t.priority == "urgent") _
      (fun acc t => by
        simp only [String.reduceEq, false_and, if_false]
        by_cases h : t.priority = "high" ∨ t.priority = "urgent" <;>
          simp [h]),
    List.nil_append]

theorem filteredTasks_today (tasks : List Task) (d : String) :
    filteredTasks tasks "today" d
      = tasks.filter (fun t => t.due_date == some "today" || t.due_date == some d) := by
  rw [filteredTasks,
    foldl_filter_step (fun t => t.due_date == some "today" || t.due_date == some d) _
      (fun acc t => by
        simp only [String.reduceEq, false_and, if_false]
        by_cases h : t.due_date = some "today" ∨ t.due_date = some d <;>
          simp [h]),
    List.nil_append]

/-- C5: the status filters return exactly the matching subset of the
unmodified task order, the high-priority filter exactly the tasks with
priority `high` or `urgent`, the today filter exactly the tasks due the
literal `"today"` or the current `YYYY-MM-DD` string (nothing else, so
`"tomorrow"` never matches), and the footer counts range over the whole
unfiltered task list. -/
theorem list_tasks_filters :
    (∀ (tasks : List Task) (d : String),
      filteredTasks tasks "pending" d
        = tasks.filter (fun t => t.status == "pending")) ∧
    (∀ (tasks : List Task) (d : String),
      filteredTasks tasks "completed" d
        = tasks.filter (fun t => t.status == "completed")) ∧
    (∀ (tasks : List Task) (d : String),
      filteredTasks tasks "high-priority" d
        = tasks.filter (fun t => t.priority == "high" || t.priority == "urgent")) ∧
    (∀ (tasks : List Task) (d : String),
      filteredTasks tasks "today" d
        = tasks.filter (fun t => t.due_date == some "today" || t.due_date == some d)) ∧
    (∀ (tasks : List Task) (d : String) (t : Task), d ≠ "tomorrow" →
      t.due_date = some "tomorrow" → t ∉ filteredTasks tasks "today" d) ∧
    (∀ (s : Store) (fb d : String), s.tasks ≠ [] →
      filteredTasks s.tasks (strToLower fb) d ≠ [] →
      ∃ body, list_tasks s fb d
        = body ++ listFooter s.tasks.length
            ((s.tasks.filter (fun t => t.status == "pending")).length)
            ((s.tasks.filter (fun t => t.status == "completed")).length)) := by
  refine ⟨filteredTasks_pending, filteredTasks_completed,
    filteredTasks_highPriority, filteredTasks_today, ?_, ?_⟩
  · intro tasks d t hd hdue hmem
    rw [filteredTasks_today] at hmem
    have := List.of_mem_filter hmem
    simp [hdue] at this
    exact hd this.symm
  · intro s fb d h1 h2
    apply Exists.intro
    simp only [list_tasks, if_neg h1, if_neg h2, List.countP_eq_length_filter]
    rfl

/-- Closed instance of the footer clause of `list_tasks_filters` on a
one-task store. -/
theorem list_tasks_filters_witness :
    ∃ body,
      list_tasks
        (Store.mk [⟨1, "x", "medium", "pending", "2026-10-12 09:00", none, none⟩] 2)
        "all" "2026-10-12"
      = body ++ listFooter 1 1 0 := by
  have h := list_tasks_filters.2.2.2.2.2
    (Store.mk [⟨1, "x", "medium", "pending", "2026-10-12 09:00", none, none⟩] 2)
    "all" "2026-10-12" (by decide) (by decide)
  simpa using h

/-! ## Daily summary -/

theorem abs_sub_roundHalfEven (q : ℚ) : |q - (roundHalfEven q : ℚ)| ≤ 1 / 2 := by
  rw [roundHalfEven]
  by_cases h : Int.fract q = 1 / 2
  · rw [if_pos h]
    have hq : q - (⌊q⌋ : ℚ) = 1 / 2 := by
      rw [Int.self_sub_floor]
      exact h
    by_cases h2 : 2 ∣ ⌊q⌋
    · rw [if_pos h2, abs_le]
      constructor <;> linarith
    · rw [if_neg h2]
      push_cast
      rw [abs_le]
      constructor <;> linarith
  · rw [if_neg h]
    exact abs_sub_round q

theorem le_completionRate_iff (a : ℕ) (s : Store) (h : 0 < totalTasks s) :
    ((a : ℚ) ≤ completionRate s ↔ a * totalTasks s ≤ 100 * completedCount s) := by
  rw [completionRate, if_pos h, div_mul_eq_mul_div,
    le_div_iff₀ (by exact_mod_cast h)]
  constructor
  · intro h'
    have h'' : ((a * totalTasks s : ℕ) : ℚ) ≤ ((completedCount s * 100 : ℕ) : ℚ) := by
      push_cast
      linarith
    have := Nat.cast_le.mp h''
    omega
  · intro h'
    have h'' : ((a * totalTasks s : ℕ) : ℚ) ≤ ((completedCount s * 100 : ℕ) : ℚ) :=
      Nat.cast_le.mpr (by omega)
    push_cast at h''
    linarith

theorem completionRate_eq_100_iff (s : Store) (h : 0 < totalTasks s) :
    (completionRate s = 100 ↔ completedCount s = totalTasks s) := by
  rw [completionRate, if_pos h, div_mul_eq_mul_div,
    div_eq_iff (by exact_mod_cast h.ne')]
  constructor
  · intro h'
    have h'' : ((completedCount s * 100 : ℕ) : ℚ) = ((100 * totalTasks s : ℕ) : ℚ) := by
      push_cast
      linarith
    have := Nat.cast_inj.mp h''
    omega
  · intro h'
    rw [h']
    ring

/-- Four tasks, three of them completed. -/
def summaryExample : Store :=
  ⟨[⟨1, "a", "low", "completed", "2026-10-12 09:00", none, some "2026-10-12 10:00"⟩,
    ⟨2, "b", "low", "completed", "2026-10-12 09:00", none, some "2026-10-12 10:00"⟩,
    ⟨3, "c", "low", "completed", "2026-10-12 09:00", none, some "2026-10-12 10:00"⟩,
    ⟨4, "d", "low", "pending", "2026-10-12 09:00", none, none⟩], 5⟩

theorem completionRate_summaryExample : completionRate summaryExample = 75 := by
  have hc : completedCount summaryExample = 3 := rfl
  have ht : totalTasks summaryExample = 4 := rfl
  rw [completionRate, ht, hc]
  norm_num

/-- C2: on a non-empty store the printed completion rate is a nearest
integer to `completed/total*100`, the encouragement tier follows the
rate thresholds `100 / ≥75 / ≥50 / ≥25 / else` (stated equivalently on
the counts), and the summary string reports exactly that rate and tier;
on 4 tasks with 3 completed the rate prints as 75 with the tier-4 line;
an empty store returns the empty-store message and its rate guard
short-circuits to 0 without dividing. -/
theorem daily_summary_spec :
    (∀ s : Store, s.tasks ≠ [] →
      |completionRate s - (progressDisplay s : ℚ)| ≤ 1 / 2 ∧
      (completedCount s = totalTasks s →
        encouragement s = "🎉 Perfect! You've completed everything!") ∧
      (3 * totalTasks s ≤ 4 * completedCount s → completedCount s ≠ totalTasks s →
        encouragement s = "🌟 Great progress! You're almost there!") ∧
      (totalTasks s ≤ 2 * completedCount s → 4 * completedCount s < 3 * totalTasks s →
        encouragement s = "👍 Good work! Keep it up!") ∧
      (totalTasks s ≤ 4 * completedCount s → 2 * completedCount s < totalTasks s →
        encouragement s = "💪 You're making progress! Stay focused!") ∧
      (4 * completedCount s < totalTasks s →
        encouragement s = "🚀 Let's get started! You've got this!") ∧
      ∃ pre, get_daily_summary s
        = pre ++ "Progress: " ++ toString (progressDisplay s) ++ "%\n\n"
            ++ encouragement s) ∧
    (progressDisplay summaryExample = 75 ∧
      encouragement summaryExample = "🌟 Great progress! You're almost there!") ∧
    (∀ s : Store, s.tasks = [] →
      get_daily_summary s = emptySummaryMsg ∧ completionRate s = 0) := by
  refine ⟨?_, ⟨?_, ?_⟩, ?_⟩
  · intro s hs
    have hT : 0 < totalTasks s := by
      rw [totalTasks]
      exact List.length_pos.mpr hs
    have h100 := completionRate_eq_100_iff s hT
    have h75 := le_completionRate_iff 75 s hT
    have h50 := le_completionRate_iff 50 s hT
    have h25 := le_completionRate_iff 25 s hT
    norm_num at h75 h50 h25
    refine ⟨abs_sub_roundHalfEven _, ?_, ?_, ?_, ?_, ?_, ?_⟩
    · intro hc
      rw [encouragement, if_pos (h100.mpr hc)]
    · intro hc hne
      rw [encouragement, if_neg (fun hx => hne (h100.mp hx)),
        if_pos (h75.mpr (by omega))]
    · intro hc hlt
      rw [encouragement,
        if_neg (fun hx => by have := h100.mp hx; omega),
        if_neg (fun hx => by have := h75.mp hx; omega),
        if_pos (h50.mpr (by omega))]
    · intro hc hlt
      rw [encouragement,
        if_neg (fun hx => by have := h100.mp hx; omega),
        if_neg (fun hx => by have := h75.mp hx; omega),
        if_neg (fun hx => by have := h50.mp hx; omega),
        if_pos (h25.mpr (by omega))]
    · intro hc
      rw [encouragement,
        if_neg (fun hx => by have := h100.mp hx; omega),
        if_neg (fun hx => by have := h75.mp hx; omega),
        if_neg (fun hx => by have := h50.mp hx; omega),
        if_neg (fun hx => by have := h25.mp hx; omega)]
    · apply Exists.intro
      rw [get_daily_summary, if_neg hs]
  · have h := completionRate_summaryExample
    rw [progressDisplay, h, roundHalfEven]
    norm_num [Int.fract]
  · rw [encouragement, completionRate_summaryExample]
    norm_num
  · intro s hs
    refine ⟨by rw [get_daily_summary, if_pos hs], ?_⟩
    have ht : totalTasks s = 0 := by rw [totalTasks, hs]; rfl
    rw [completionRate, if_neg (by omega)]

/-- Closed instance of `daily_summary_spec` at the 4-task store:
discharges the non-emptiness and the tier-4 count hypotheses. -/
theorem daily_summary_spec_witness :
    |completionRate summaryExample - (progressDisplay summaryExample : ℚ)| ≤ 1 / 2 ∧
    encouragement summaryExample = "🌟 Great progress! You're almost there!" := by
  have h := daily_summary_spec.1 summaryExample (by decide)
  exact ⟨h.1, h.2.2.1 (by decide) (by decide)⟩

/-! ## Suggestion ordering -/

/-- The spec's worked example: pending priorities
`[low, urgent, medium, urgent]` with due dates
`[None, "Oct 5", "today", "Oct 1"]`. -/
def suggestExample : Store :=
  ⟨[⟨1, "first", "low", "pending", "2026-10-12 09:00", none, none⟩,
    ⟨2, "second", "urgent", "pending", "2026-10-12 09:00", some "Oct 5", none⟩,
    ⟨3, "third", "medium", "pending", "2026-10-12 09:00", some "today", none⟩,
    ⟨4, "fourth", "urgent", "pending", "2026-10-12 09:00", some "Oct 1", none⟩], 5⟩

/-- C1: on any store with pending tasks, the task the code suggests is a
pending task that is minimal for the lexicographic key
`(priority rank, due-date text)` and strictly below every pending task
before it (ties broken by insertion order); the rank table and the
absent-due-date sentinel are as the spec states; on the worked example
the suggestion is the urgent task due `"Oct 1"`. -/
theorem suggest_next_spec :
    (∀ s : Store, pendingTasks s ≠ [] →
      ∃ t l₁ l₂, suggestedTask s = some t ∧
        pendingTasks s = l₁ ++ t :: l₂ ∧
        (∀ u ∈ pendingTasks s, ¬ keyLt u t) ∧
        (∀ u ∈ l₁, keyLt t u)) ∧
    priorityRank "urgent" = 0 ∧ priorityRank "high" = 1 ∧
    priorityRank "medium" = 2 ∧ priorityRank "low" = 3 ∧
    (∀ p, p ≠ "urgent" → p ≠ "high" → p ≠ "medium" → p ≠ "low" →
      priorityRank p = 4) ∧
    (∀ t : Task, t.due_date = none → dueKey t = "9999") ∧
    suggestedTask suggestExample
      = some ⟨4, "fourth", "urgent", "pending", "2026-10-12 09:00", some "Oct 1", none⟩ := by
  refine ⟨?_, rfl, rfl, rfl, rfl, ?_, ?_, by decide⟩
  · intro s hs
    cases hp : pendingTasks s with
    | nil => exact absurd hp hs
    | cons x xs =>
      obtain ⟨l₁, l₂, hsplit, hpre⟩ := pickMin_split xs x
      refine ⟨pickMin x xs, l₁, l₂, ?_, ?_, ?_, hpre⟩
      · rw [suggestedTask, hp]
        exact head?_sortByKey x xs
      · exact hsplit
      · exact pickMin_min xs x
  · intro p h1 h2 h3 h4
    rw [priorityRank, if_neg h1, if_neg h2, if_neg h3, if_neg h4]
  · intro t h
    rw [dueKey, h]

/-- Closed instance of `suggest_next_spec` on the worked example store. -/
theorem suggest_next_spec_witness :
    ∃ t l₁ l₂, suggestedTask suggestExample = some t ∧
      pendingTasks suggestExample = l₁ ++ t :: l₂ ∧
      (∀ u ∈ pendingTasks suggestExample, ¬ keyLt u t) ∧
      (∀ u ∈ l₁, keyLt t u) :=
  suggest_next_spec.1 suggestExample (by decide)

/-- Two pending tasks of equal priority, the earlier one due `"today"`,
the later one with no due date. -/
def undatedExample : Store :=
  ⟨[⟨1, "dated", "medium", "pending", "2026-10-12 09:00", some "today", none⟩,
    ⟨2, "undated", "medium", "pending", "2026-10-12 09:00", none, none⟩], 3⟩

/-- C9: with equal priorities, the undated task beats the one due
`"today"`, because its sentinel key `"9999"` sorts lexicographically
before `"today"` (digits precede letters), so undated tasks are not sent
to the back. -/
theorem suggest_undated_before_today :
    suggestedTask undatedExample
      = some ⟨2, "undated", "medium", "pending", "2026-10-12 09:00", none, none⟩ ∧
    dueKey ⟨2, "undated", "medium", "pending", "2026-10-12 09:00", none, none⟩
      = "9999" ∧
    strLt "9999" "today" ∧
    keyLt ⟨2, "undated", "medium", "pending", "2026-10-12 09:00", none, none⟩
      ⟨1, "dated", "medium", "pending", "2026-10-12 09:00", some "today", none⟩ := by
  refine ⟨by decide, rfl, by decide, by decide⟩

/-! ## Id assignment -/

theorem task_id_counter_complete (s : Store) (tid : Nat) (now : String) :
    (complete_task s tid now).1.task_id_counter = s.task_id_counter := by
  unfold complete_task
  split <;> rfl

theorem task_id_counter_delete (s : Store) (tid : Nat) :
    (delete_task s tid).1.task_id_counter = s.task_id_counter := by
  unfold delete_task
  split <;> rfl

theorem task_id_counter_update (s : Store) (tid : Nat) (p : String) :
    (update_task_priority s tid p).1.task_id_counter = s.task_id_counter := by
  unfold update_task_priority
  split <;> rfl

theorem task_id_counter_clear (s : Store) :
    (clear_completed_tasks s).1.task_id_counter = s.task_id_counter := by
  unfold clear_completed_tasks
  by_cases h : List.filter (fun t => t.status == "completed") s.tasks = [] <;>
    simp [h]

theorem assignedIds_bounds :
    ∀ (ops : List Op) (s : Store),
      (∀ i ∈ assignedIds s ops,
        s.task_id_counter ≤ i ∧ i < (run s ops).task_id_counter) ∧
      List.Pairwise (· < ·) (assignedIds s ops) ∧
      s.task_id_counter ≤ (run s ops).task_id_counter := by
  intro ops
  induction ops with
  | nil =>
    intro s
    refine ⟨?_, by simp [assignedIds], le_refl _⟩
    intro i hi
    simp [assignedIds] at hi
  | cons op ops ih =>
    intro s
    obtain ⟨ihb, ihp, ihm⟩ := ih (applyOp s op)
    have hrun : run s (op :: ops) = run (applyOp s op) ops := rfl
    by_cases hadd : ∃ d p due now, op = Op.add d p due now
    · obtain ⟨d, p, due, now, rfl⟩ := hadd
      have ha : assignedIds s (Op.add d p due now :: ops)
          = s.task_id_counter :: assignedIds (applyOp s (Op.add d p due now)) ops := rfl
      have hc : (applyOp s (Op.add d p due now)).task_id_counter
          = s.task_id_counter + 1 := rfl
      rw [hrun, ha]
      refine ⟨?_, ?_, ?_⟩
      · intro i hi
        rcases List.mem_cons.mp hi with rfl | hi
        · refine ⟨le_refl _, lt_of_lt_of_le (Nat.lt_succ_self _) ?_⟩
          have h := ihm
          rw [hc] at h
          omega
        · obtain ⟨h1, h2⟩ := ihb i hi
          rw [hc] at h1
          exact ⟨by omega, h2⟩
      · rw [List.pairwise_cons]
        refine ⟨?_, ihp⟩
        intro i hi
        have h1 := (ihb i hi).1
        rw [hc] at h1
        omega
      · have h := ihm
        rw [hc] at h
        omega
    · have ha : assignedIds s (op :: ops) = assignedIds (applyOp s op) ops := by
        cases op with
        | add d p due now => exact absurd ⟨d, p, due, now, rfl⟩ hadd
        | complete tid now => rfl
        | delete tid => rfl
        | updatePriority tid p => rfl
        | clearCompleted => rfl
      have hc : (applyOp s op).task_id_counter = s.task_id_counter := by
        cases op with
        | add d p due now => exact absurd ⟨d, p, due, now, rfl⟩ hadd
        | complete tid now => exact task_id_counter_complete s tid now
        | delete tid => exact task_id_counter_delete s tid
        | updatePriority tid p => exact task_id_counter_update s tid p
        | clearCompleted => exact task_id_counter_clear s
      rw [hrun, ha]
      exact ⟨fun i hi => ⟨hc ▸ (ihb i hi).1, (ihb i hi).2⟩, ihp, hc ▸ ihm⟩

/-- C3: over any operation sequence from the empty store, the ids handed
out by `add` are strictly increasing (hence never repeated, also across
interleaved deletes), every id ever assigned stays below the final
counter, and the counter never decreases along any extension. -/
theorem id_monotonicity :
    (∀ ops : List Op,
      List.Pairwise (· < ·) (assignedIds initialStore ops) ∧
      (assignedIds initialStore ops).Nodup ∧
      (∀ i ∈ assignedIds initialStore ops,
        i < (run initialStore ops).task_id_counter)) ∧
    (∀ l₁ l₂ : List Op,
      (run initialStore l₁).task_id_counter
        ≤ (run initialStore (l₁ ++ l₂)).task_id_counter) := by
  constructor
  · intro ops
    obtain ⟨hb, hp, _⟩ := assignedIds_bounds ops initialStore
    exact ⟨hp, hp.imp (fun h => Nat.ne_of_lt h), fun i hi => (hb i hi).2⟩
  · intro l₁ l₂
    have h : run initialStore (l₁ ++ l₂) = run (run initialStore l₁) l₂ :=
      List.foldl_append _ _ _ _
    rw [h]
    exact (assignedIds_bounds l₂ (run initialStore l₁)).2.2

/-- Closed instance of `id_monotonicity`: after add, delete, add the
assigned ids are `[1, 2]` and both stay below the final counter 3. -/
theorem id_monotonicity_witness :
    assignedIds initialStore
        [Op.add "a" "high" none "2026-10-12 09:00", Op.delete 1,
         Op.add "b" "medium" none "2026-10-12 09:05"] = [1, 2] ∧
    2 < (run initialStore
        [Op.add "a" "high" none "2026-10-12 09:00", Op.delete 1,
         Op.add "b" "medium" none "2026-10-12 09:05"]).task_id_counter :=
  ⟨by decide,
    (id_monotonicity.1
      [Op.add "a" "high" none "2026-10-12 09:00", Op.delete 1,
       Op.add "b" "medium" none "2026-10-12 09:05"]).2.2 2 (by decide)⟩

/-! ## Status / completed_at coupling -/

theorem mem_completeList (tid : Nat) (now : String) :
    ∀ (l : List Task) (u : Task), u ∈ (completeList tid now l).1 →
      u ∈ l ∨ ∃ t ∈ l, u = { t with status := "completed", completed_at := some now } := by
  intro l
  induction l with
  | nil => intro u hu; simp [completeList] at hu
  | cons t ts ih =>
    intro u hu
    by_cases h1 : t.id = tid
    · by_cases h2 : t.status = "completed"
      · simp only [completeList, if_pos h1, if_pos h2] at hu
        exact Or.inl hu
      · simp only [completeList, if_pos h1, if_neg h2] at hu
        rcases List.mem_cons.mp hu with rfl | hu
        · exact Or.inr ⟨t, List.mem_cons_self _ _, rfl⟩
        · exact Or.inl (List.mem_cons.mpr (Or.inr hu))
    · simp only [completeList, if_neg h1] at hu
      rcases List.mem_cons.mp hu with rfl | hu
      · exact Or.inl (List.mem_cons_self _ _)
      · rcases ih u hu with h | ⟨t', ht', rfl⟩
        · exact Or.inl (List.mem_cons.mpr (Or.inr h))
        · exact Or.inr ⟨t', List.mem_cons.mpr (Or.inr ht'), rfl⟩

theorem mem_deleteList (tid : Nat) :
    ∀ (l : List Task) (u : Task), u ∈ (deleteList tid l).1 → u ∈ l := by
  intro l
  induction l with
  | nil => intro u hu; simp [deleteList] at hu
  | cons t ts ih =>
    intro u hu
    by_cases h1 : t.id = tid
    · simp only [deleteList, if_pos h1] at hu
      exact List.mem_cons.mpr (Or.inr hu)
    · simp only [deleteList, if_neg h1] at hu
      rcases List.mem_cons.mp hu with rfl | hu
      · exact List.mem_cons_self _ _
      · exact List.mem_cons.mpr (Or.inr (ih u hu))

theorem mem_updateList (tid : Nat) (p : String) :
    ∀ (l : List Task) (u : Task), u ∈ (updateList tid p l).1 →
      u ∈ l ∨ ∃ t ∈ l, u = { t with priority := strToLower p } := by
  intro l
  induction l with
  | nil => intro u hu; simp [updateList] at hu
  | cons t ts ih =>
    intro u hu
    by_cases h1 : t.id = tid
    · simp only [updateList, if_pos h1] at hu
      rcases List.mem_cons.mp hu with rfl | hu
      · exact Or.inr ⟨t, List.mem_cons_self _ _, rfl⟩
      · exact Or.inl (List.mem_cons.mpr (Or.inr hu))
    · simp only [updateList, if_neg h1] at hu
      rcases List.mem_cons.mp hu with rfl | hu
      · exact Or.inl (List.mem_cons_self _ _)
      · rcases ih u hu with h | ⟨t', ht', rfl⟩
        · exact Or.inl (List.mem_cons.mpr (Or.inr h))
        · exact Or.inr ⟨t', List.mem_cons.mpr (Or.inr ht'), rfl⟩

theorem mem_complete_task (s : Store) (tid : Nat) (now : String) :
    ∀ u ∈ (complete_task s tid now).1.tasks,
      u ∈ s.tasks ∨ ∃ t ∈ s.tasks,
        u = { t with status := "completed", completed_at := some now } := by
  intro u hu
  unfold complete_task at hu
  split at hu
  · exact Or.inl hu
  · next heq =>
    have h1 : (completeList tid now s.tasks).1 = _ := congrArg Prod.fst heq
    apply mem_completeList tid now s.tasks u
    rw [h1]
    exact hu
  · exact Or.inl hu

theorem mem_delete_task (s : Store) (tid : Nat) :
    ∀ u ∈ (delete_task s tid).1.tasks, u ∈ s.tasks := by
  intro u hu
  unfold delete_task at hu
  split at hu
  · next heq =>
    have h1 : (deleteList tid s.tasks).1 = _ := congrArg Prod.fst heq
    apply mem_deleteList tid s.tasks u
    rw [h1]
    exact hu
  · exact hu

theorem mem_update_task (s : Store) (tid : Nat) (p : String) :
    ∀ u ∈ (update_task_priority s tid p).1.tasks,
      u ∈ s.tasks ∨ ∃ t ∈ s.tasks, u = { t with priority := strToLower p } := by
  intro u hu
  unfold update_task_priority at hu
  split at hu
  · next heq =>
    have h1 : (updateList tid p s.tasks).1 = _ := congrArg Prod.fst heq
    apply mem_updateList tid p s.tasks u
    rw [h1]
    exact hu
  · exact Or.inl hu

theorem mem_clear_tasks (s : Store) :
    ∀ u ∈ (clear_completed_tasks s).1.tasks, u ∈ s.tasks := by
  intro u hu
  unfold clear_completed_tasks at hu
  by_cases h : List.filter (fun t => t.status == "completed") s.tasks = []
  · rw [if_pos h] at hu
    exact hu
  · rw [if_neg h] at hu
    exact List.mem_of_mem_filter hu

theorem tasks_add_task (s : Store) (d p : String) (due : Option String) (now : String) :
    (add_task s d p due now).1.tasks
      = s.tasks ++
        [{ id := s.task_id_counter, description := d, priority := strToLower p,
           status := "pending", created_at := now, due_date := due,
           completed_at := none }] := rfl

/-- The coupling invariant of one task record. -/
def statusCoupled (t : Task) : Prop :=
  t.status = "completed" ↔ t.completed_at ≠ none

theorem statusCoupled_applyOp (s : Store) (op : Op)
    (hs : ∀ t ∈ s.tasks, statusCoupled t) :
    ∀ t ∈ (applyOp s op).tasks, statusCoupled t := by
  intro u hu
  cases op with
  | add d p due now =>
    rw [applyOp, tasks_add_task] at hu
    rcases List.mem_append.mp hu with h | h
    · exact hs u h
    · obtain rfl : u = _ := List.mem_singleton.mp h
      rw [statusCoupled]
      simp
  | complete tid now =>
    rcases mem_complete_task s tid now u hu with h | ⟨t, _, rfl⟩
    · exact hs u h
    · rw [statusCoupled]
      simp
  | delete tid =>
    exact hs u (mem_delete_task s tid u hu)
  | updatePriority tid p =>
    rcases mem_update_task s tid p u hu with h | ⟨t, ht, rfl⟩
    · exact hs u h
    · exact hs t ht
  | clearCompleted =>
    exact hs u (mem_clear_tasks s u hu)

theorem statusCoupled_run :
    ∀ (ops : List Op) (s : Store), (∀ t ∈ s.tasks, statusCoupled t) →
      ∀ t ∈ (run s ops).tasks, statusCoupled t := by
  intro ops
  induction ops with
  | nil => intro s hs; exact hs
  | cons op ops ih =>
    intro s hs
    exact ih (applyOp s op) (statusCoupled_applyOp s op hs)

theorem completeList_already (tid : Nat) (now : String) :
    ∀ (l : List Task) (t : Task),
      l.find? (fun u => u.id == tid) = some t → t.status = "completed" →
      completeList tid now l = (l, some (t, true)) := by
  intro l
  induction l with
  | nil => intro t ht hc; simp at ht
  | cons a ts ih =>
    intro t ht hc
    by_cases h : a.id = tid
    · rw [List.find?_cons_of_pos _ (by simpa using h)] at ht
      obtain rfl : a = t := by simpa using ht
      rw [completeList, if_pos h, if_pos hc]
    · rw [List.find?_cons_of_neg _ (by simpa using h)] at ht
      rw [completeList, if_neg h, ih t ht hc]

theorem completeList_pending (tid : Nat) (now : String) :
    ∀ (l : List Task) (t : Task),
      l.find? (fun u => u.id == tid) = some t → t.status ≠ "completed" →
      (completeList tid now l).2
          = some ({ t with status := "completed", completed_at := some now }, false) ∧
      (completeList tid now l).1.find? (fun u => u.id == tid)
          = some { t with status := "completed", completed_at := some now } := by
  intro l
  induction l with
  | nil => intro t ht hc; simp at ht
  | cons a ts ih =>
    intro t ht hc
    by_cases h : a.id = tid
    · rw [List.find?_cons_of_pos _ (by simpa using h)] at ht
      obtain rfl : a = t := by simpa using ht
      rw [completeList, if_pos h, if_neg hc]
      refine ⟨rfl, ?_⟩
      exact List.find?_cons_of_pos _ (by simpa using h)
    · rw [List.find?_cons_of_neg _ (by simpa using h)] at ht
      obtain ⟨ih1, ih2⟩ := ih t ht hc
      rw [completeList, if_neg h]
      refine ⟨ih1, ?_⟩
      rw [List.find?_cons_of_neg _ (by simpa using h)]
      exact ih2

theorem complete_task_already (s : Store) (tid : Nat) (now : String) (t : Task)
    (hf : s.tasks.find? (fun u => u.id == tid) = some t)
    (hc : t.status = "completed") :
    complete_task s tid now = (s, alreadyDoneMsg t.description) := by
  unfold complete_task
  rw [completeList_already tid now s.tasks t hf hc]

theorem complete_task_pending (s : Store) (tid : Nat) (now : String) (t : Task)
    (hf : s.tasks.find? (fun u => u.id == tid) = some t)
    (hp : t.status ≠ "completed") :
    (complete_task s tid now).1.tasks.find? (fun u => u.id == tid)
        = some { t with status := "completed", completed_at := some now } ∧
    (complete_task s tid now).2
        = completeSuccessMsg t.description
            ((complete_task s tid now).1.tasks.countP (fun u => u.status == "pending")) := by
  obtain ⟨h2, h1⟩ := completeList_pending tid now s.tasks t hf hp
  unfold complete_task
  split
  · next heq =>
    have := congrArg Prod.snd heq
    rw [h2] at this
    simp at this
  · next ts' tt heq =>
    have hfst : (completeList tid now s.tasks).1 = ts' := congrArg Prod.fst heq
    have hsnd := congrArg Prod.snd heq
    rw [h2] at hsnd
    have htt : tt = { t with status := "completed", completed_at := some now } := by
      have := Option.some.inj hsnd.symm
      exact (Prod.mk.injEq _ _ _ _).mp this |>.1
    rw [hfst] at h1
    subst htt
    exact ⟨h1, rfl⟩
  · next heq =>
    have := congrArg Prod.snd heq
    rw [h2] at this
    simp at this

theorem alreadyDoneMsg_ne_successMsg (d : String) (r : Nat) :
    alreadyDoneMsg d ≠ completeSuccessMsg d r := by
  intro h
  have h1 : (alreadyDoneMsg d).data.head? = some 'T' := rfl
  have h2 : (completeSuccessMsg d r).data.head? = some 'A' := by
    unfold completeSuccessMsg
    split
    · rfl
    · split <;> rfl
  rw [h] at h1
  rw [h2] at h1
  simp at h1

/-- C4: in every state reachable from the empty store a task's status is
`"completed"` exactly when its `completed_at` is set; completing a
pending task rewrites that task's status and timestamp in place (and
reports the post-update pending count); completing an already-completed
task returns the store unchanged with the already-done message, which
differs from every success message. -/
theorem status_completed_at_coupling :
    (∀ ops : List Op, ∀ t ∈ (run initialStore ops).tasks, statusCoupled t) ∧
    (∀ (s : Store) (tid : Nat) (now : String) (t : Task),
      s.tasks.find? (fun u => u.id == tid) = some t → t.status ≠ "completed" →
      (complete_task s tid now).1.tasks.find? (fun u => u.id == tid)
          = some { t with status := "completed", completed_at := some now } ∧
      (complete_task s tid now).2
          = completeSuccessMsg t.description
              ((complete_task s tid now).1.tasks.countP
                (fun u => u.status == "pending"))) ∧
    (∀ (s : Store) (tid : Nat) (now : String) (t : Task),
      s.tasks.find? (fun u => u.id == tid) = some t → t.status = "completed" →
      complete_task s tid now = (s, alreadyDoneMsg t.description)) ∧
    (∀ (d : String) (r : Nat), alreadyDoneMsg d ≠ completeSuccessMsg d r) := by
  refine ⟨?_, complete_task_pending, complete_task_already,
    alreadyDoneMsg_ne_successMsg⟩
  intro ops
  apply statusCoupled_run ops initialStore
  intro t ht
  simp [initialStore] at ht

/-- Closed instance of `status_completed_at_coupling` on one-task
stores: completing the pending task writes both fields; completing the
completed one changes nothing and answers with the already-done text. -/
theorem status_completed_at_coupling_witness :
    ((complete_task (Store.mk
        [⟨1, "w", "medium", "pending", "2026-10-12 09:00", none, none⟩] 2)
        1 "2026-10-12 11:00").1.tasks.find? (fun u => u.id == 1)
      = some ⟨1, "w", "medium", "completed", "2026-10-12 09:00", none,
          some "2026-10-12 11:00"⟩) ∧
    complete_task (Store.mk
        [⟨1, "w", "medium", "completed", "2026-10-12 09:00", none,
          some "2026-10-12 10:00"⟩] 2) 1 "2026-10-12 11:00"
      = (Store.mk
          [⟨1, "w", "medium", "completed", "2026-10-12 09:00", none,
            some "2026-10-12 10:00"⟩] 2, alreadyDoneMsg "w") := by
  constructor
  · exact (status_completed_at_coupling.2.1
      (Store.mk [⟨1, "w", "medium", "pending", "2026-10-12 09:00", none, none⟩] 2)
      1 "2026-10-12 11:00"
      ⟨1, "w", "medium", "pending", "2026-10-12 09:00", none, none⟩
      (by rfl) (by decide)).1
  · exact status_completed_at_coupling.2.2.1
      (Store.mk [⟨1, "w", "medium", "completed", "2026-10-12 09:00", none,
        some "2026-10-12 10:00"⟩] 2)
      1 "2026-10-12 11:00"
      ⟨1, "w", "medium", "completed", "2026-10-12 09:00", none,
        some "2026-10-12 10:00"⟩
      (by rfl) (by rfl)

/-! ## Descriptions -/

/-- C7 counterexample: `add_task` does not validate the description, so
one `add` call with the empty string reaches a state holding a task
whose description is empty. -/
theorem add_empty_description :
    ∃ t ∈ (run initialStore [Op.add "" "medium" none "2026-10-12 09:00"]).tasks,
      t.description = "" :=
  ⟨⟨1, "", "medium", "pending", "2026-10-12 09:00", none, none⟩, by decide, rfl⟩

/-- C7 amended: no operation ever alters a stored description, so a
state reached from the empty store has only non-empty descriptions
whenever every `add` of its history supplied a non-empty description
(the code itself never enforces that precondition). -/
theorem descriptions_nonempty_of_adds_nonempty :
    ∀ (ops : List Op),
      (∀ d p due now, Op.add d p due now ∈ ops → d ≠ "") →
      ∀ t ∈ (run initialStore ops).tasks, t.description ≠ "" := by
  have main : ∀ (ops : List Op) (s : Store),
      (∀ t ∈ s.tasks, t.description ≠ "") →
      (∀ d p due now, Op.add d p due now ∈ ops → d ≠ "") →
      ∀ t ∈ (run s ops).tasks, t.description ≠ "" := by
    intro ops
    induction ops with
    | nil => intro s hs _; exact hs
    | cons op ops ih =>
      intro s hs hops
      apply ih (applyOp s op)
      · intro u hu
        cases op with
        | add d p due now =>
          rw [applyOp, tasks_add_task] at hu
          rcases List.mem_append.mp hu with h | h
          · exact hs u h
          · obtain rfl := List.mem_singleton.mp h
            exact hops d p due now (List.mem_cons_self _ _)
        | complete tid now =>
          rcases mem_complete_task s tid now u hu with h | ⟨t, ht, rfl⟩
          · exact hs u h
          · exact hs t ht
        | delete tid => exact hs u (mem_delete_task s tid u hu)
        | updatePriority tid p =>
          rcases mem_update_task s tid p u hu with h | ⟨t, ht, rfl⟩
          · exact hs u h
          · exact hs t ht
        | clearCompleted => exact hs u (mem_clear_tasks s u hu)
      · intro d p due now hop
        exact hops d p due now (List.mem_cons.mpr (Or.inr hop))
  intro ops hops
  apply main ops initialStore
  · intro t ht
    simp [initialStore] at ht
  · exact hops

/-- Closed instance of `descriptions_nonempty_of_adds_nonempty` after
one well-formed `add`. -/
theorem descriptions_nonempty_witness :
    (⟨1, "buy milk", "high", "pending", "2026-10-12 09:00", none, none⟩
        : Task).description ≠ "" :=
  descriptions_nonempty_of_adds_nonempty
    [Op.add "buy milk" "high" none "2026-10-12 09:00"]
    (by
      intro d p due now h
      obtain ⟨rfl, rfl, rfl, rfl⟩ :
          d = "buy milk" ∧ p = "high" ∧ due = none ∧ now = "2026-10-12 09:00" := by
        simpa using h
      decide)
    ⟨1, "buy milk", "high", "pending", "2026-10-12 09:00", none, none⟩
    (by decide)

end TodoAgent
